import Mathlib

/-!
# Verification of the gamecode-mcp2 chat-bot examples

A shallow embedding, in Lean 4, of the message dispatch pipeline of the
repository's three bot scripts:

* `examples/claude-code-only/slack-bot/slack_claude_bot.py` (the Slack bot),
* `example-configs/claude-code-only/teams-bot/teams_claude_bot_polling.py`
  (the Teams polling bot),
* `examples/claude-code-only/teams-bot/teams_bot_simple.py`
  (the Teams outgoing-webhook bot),

together with proofs about the authorization filter, the deduplicator, the
prompt extractor, the request pipelines and the response formatter.

Python strings are embedded as `List Char` (`Str`); Python's `str` methods
(`strip`, `lower`, `split`, `in`, `count`, `replace`, `startswith`) are
re-implemented character by character, as are the two `re.sub` calls of the
Teams prompt extractor and the acceptance grammar of `json.loads`.
External effects (the filesystem, the Slack/Teams network APIs, the spawned
subprocess) are the pipeline's inputs and outputs: filesystem queries are
oracle parameters, the executor's outcome is an explicit `ExecOutcome`, and
the user-visible platform calls are the returned action trace.
-/

/-- A Python string, embedded as its list of characters. -/
abbrev Str := List Char

namespace PyStr

/-- Python's `str.isspace` / `\s` character class, restricted to the ASCII
whitespace the bots' messages can contain: space, `\t`, `\n`, `\r`, `\x0b`,
`\x0c`. -/
def isSpace (c : Char) : Bool :=
  c = ' ' || c = '\t' || c = '\n' || c = '\r' || c = '\x0b' || c = '\x0c'

/-- Drop trailing characters satisfying `isSpace` (the right half of
Python's `str.strip()`). -/
def dropTrailing : Str → Str
  | [] => []
  | c :: t =>
    let r := dropTrailing t
    if r.isEmpty && isSpace c then [] else c :: r

/-- Python's `str.strip()` with no argument: remove leading and trailing
whitespace. -/
def strip (s : Str) : Str := dropTrailing (s.dropWhile isSpace)

/-- Python's `str.lower()` (ASCII case folding suffices for the bots'
configuration strings and messages). -/
def lower (s : Str) : Str := s.map Char.toLower

/-- Python's substring test `pat in s`. -/
def containsStr : Str → Str → Bool
  | [], pat => pat.isEmpty
  | s@(_ :: t), pat => pat.isPrefixOf s || containsStr t pat

/-- Python's `s.startswith(pat)`. -/
def startsWith (s pat : Str) : Bool := pat.isPrefixOf s

/-- Python's `s.split(sep)` for a one-character separator: never returns an
empty list; `"".split(sep) == [""]`. -/
def split (sep : Char) : Str → List Str
  | [] => [[]]
  | c :: t =>
    if c = sep then [] :: split sep t
    else
      match split sep t with
      | [] => [[c]]
      | h :: r => (c :: h) :: r

/-- The left-to-right scan of Python's `s.replace(pat, "")`, indexed by a
fuel that any value at least `s.length` saturates (each step consumes at
least one character when `pat` is non-empty). -/
def removeAllSubF (pat : Str) : Nat → Str → Str
  | 0, s => s
  | _ + 1, [] => []
  | fuel + 1, c :: t =>
    if !pat.isEmpty && pat.isPrefixOf (c :: t) then
      removeAllSubF pat fuel ((c :: t).drop pat.length)
    else
      c :: removeAllSubF pat fuel t

/-- Python's `s.replace(pat, "")` for a non-empty `pat` (the only use in the
repository replaces with the empty string): remove every occurrence of
`pat`, scanning left to right. -/
def removeAllSub (pat s : Str) : Str := removeAllSubF pat s.length s

theorem dropTrailing_sublist : ∀ l : Str, List.Sublist (dropTrailing l) l := by
  intro l
  induction l with
  | nil => exact List.Sublist.refl _
  | cons c t ih =>
    simp only [dropTrailing]
    by_cases h : ((dropTrailing t).isEmpty && isSpace c) = true
    · rw [if_pos h]
      exact List.nil_sublist _
    · rw [if_neg h]
      exact ih.cons₂ c

theorem dropTrailing_cons_not_space {c : Char} (hc : isSpace c = false)
    (t : Str) : dropTrailing (c :: t) = c :: dropTrailing t := by
  simp only [dropTrailing, hc, Bool.and_false]
  rfl

theorem dropTrailing_idem : ∀ l : Str, dropTrailing (dropTrailing l) = dropTrailing l := by
  intro l
  induction l with
  | nil => rfl
  | cons c t ih =>
    simp only [dropTrailing]
    by_cases h : ((dropTrailing t).isEmpty && isSpace c) = true
    · rw [if_pos h]
      rfl
    · rw [if_neg h]
      simp only [dropTrailing, ih]
      rw [if_neg h]

theorem dropWhile_dropWhile (p : Char → Bool) : ∀ l : Str,
    (l.dropWhile p).dropWhile p = l.dropWhile p := by
  intro l
  induction l with
  | nil => rfl
  | cons c t ih =>
    by_cases h : p c = true
    · rw [List.dropWhile_cons_of_pos h, ih]
    · have h' : p c = false := by revert h; cases p c <;> simp
      rw [List.dropWhile_cons_of_neg (by simp [h']),
        List.dropWhile_cons_of_neg (by simp [h'])]

theorem dropWhile_dropTrailing {l : Str} (h : l.dropWhile isSpace = l) :
    (dropTrailing l).dropWhile isSpace = dropTrailing l := by
  cases l with
  | nil => rfl
  | cons c t =>
    have hc : isSpace c = false := by
      by_cases hx : isSpace c = true
      · exfalso
        rw [List.dropWhile_cons_of_pos hx] at h
        have := congrArg List.length h
        have hle := (List.dropWhile_sublist (l := t) (p := isSpace)).length_le
        simp only [List.length_cons] at this
        omega
      · revert hx; cases isSpace c <;> simp
    rw [dropTrailing_cons_not_space hc]
    rw [List.dropWhile_cons_of_neg (by simp [hc])]

/-- `str.strip()` is idempotent. -/
theorem strip_idem (l : Str) : strip (strip l) = strip l := by
  unfold strip
  rw [dropWhile_dropTrailing (dropWhile_dropWhile isSpace l), dropTrailing_idem]

end PyStr

/-! ## The Slack bot's authorization filter

`slack_claude_bot.py` lines 80-81 build the allow-lists by
`os.environ.get("ALLOWED_USERS", "").split(",")` (likewise for channels), and
lines 832-843 (`ClaudeSlackBot.is_authorized`) check

```
if ALLOWED_USERS and ALLOWED_USERS[0]:      # truthiness of list and of [0]
    if user not in ALLOWED_USERS: return False
if ALLOWED_CHANNELS and ALLOWED_CHANNELS[0]:
    if channel not in ALLOWED_CHANNELS: return False
return True
```
-/

namespace SlackBot

open PyStr

/-- Python truthiness of `LIST and LIST[0]`: the list is non-empty and its
first element is a non-empty string. -/
def listActive (l : List Str) : Bool := !l.isEmpty && !(l.headD []).isEmpty

/-- `ClaudeSlackBot.is_authorized` (slack_claude_bot.py lines 832-843). -/
def is_authorized (allowedUsers allowedChannels : List Str)
    (user channel : Str) : Bool :=
  if listActive allowedUsers && !allowedUsers.contains user then false
  else if listActive allowedChannels && !allowedChannels.contains channel then false
  else true

/-- The allow-list an environment-variable value `s` yields
(lines 80-81): `s.split(",")`, with an unset variable read as `""`. -/
def envAllowList (s : Str) : List Str := split ',' s

end SlackBot

section AuthorizationClaims

open PyStr SlackBot

/-- **C1** (amended). `is_authorized` returns true when both allow-lists are
empty, and returns false whenever a list is *active* — non-empty with a
non-empty first element — and the corresponding identifier does not appear in
it. (The original claim, refuted by `C1_counterexample`, asserted the false
branch for every non-empty list; a list whose first element is the empty
string imposes no restriction.) -/
theorem C1_is_authorized_allow_lists (users channels : List Str) (u c : Str) :
    is_authorized [] [] u c = true ∧
    (listActive users = true → users.contains u = false →
      is_authorized users channels u c = false) ∧
    (listActive channels = true → channels.contains c = false →
      is_authorized users channels u c = false) := by
  refine ⟨rfl, ?_, ?_⟩
  · intro ha hm
    unfold is_authorized
    rw [ha, hm]
    simp
  · intro ha hm
    unfold is_authorized
    rw [ha, hm]
    split
    · rfl
    · simp

/-- Witness for `C1_is_authorized_allow_lists` at the concrete lists
`users = ["U1"]`, `channels = ["C1"]` and absent identifiers. -/
theorem C1_witness :
    is_authorized [] [] "U9".data "C9".data = true ∧
    is_authorized [List.cons 'U' ['1']] [] "U9".data "C9".data = false ∧
    is_authorized [] [List.cons 'C' ['1']] "U9".data "C9".data = false := by
  refine ⟨(C1_is_authorized_allow_lists [] [] "U9".data "C9".data).1, ?_, ?_⟩
  · exact (C1_is_authorized_allow_lists [['U', '1']] [] "U9".data "C9".data).2.1
      (by decide) (by decide)
  · exact (C1_is_authorized_allow_lists [] [['C', '1']] "U9".data "C9".data).2.2
      (by decide) (by decide)

/-- **C1, counterexample to the claim as stated.** The user allow-list
`["", "U1"]` (as produced by `ALLOWED_USERS=",U1"`) is non-empty and does not
contain `"U2"`, yet `is_authorized` returns true: a list whose first element
is empty is skipped entirely. -/
theorem C1_counterexample :
    ([[], ['U', '1']] : List Str) ≠ [] ∧
    ([[], ['U', '1']] : List Str).contains "U2".data = false ∧
    is_authorized [[], ['U', '1']] [] "U2".data "C1".data = true := by
  decide

/-- **C10.** If the first element of an allow-list is the empty string —
which is exactly what `os.environ.get(VAR, "").split(",")` produces whenever
the variable is unset, empty, or starts with a comma — `is_authorized`
ignores that entire list, behaving as if it were `[]` (no restriction), even
when the list contains further non-empty entries. Stated for the user list;
`listActive` is the guard both lists share. -/
theorem C10_empty_first_entry_disables_list (s : Str) (channels : List Str)
    (user channel : Str) (h : s = [] ∨ s.headD 'x' = ',') :
    is_authorized (envAllowList s) channels user channel =
      is_authorized [] channels user channel := by
  have hshape : ∃ r, envAllowList s = [] :: r := by
    rcases h with h | h
    · exact ⟨[], by subst h; rfl⟩
    · cases s with
      | nil => exact ⟨[], rfl⟩
      | cons c t =>
        simp only [List.headD_cons] at h
        subst h
        exact ⟨split ',' t, by simp [envAllowList, split]⟩
  rcases hshape with ⟨r, hr⟩
  rw [hr]
  simp [is_authorized, listActive]

/-- Witness for `C10_empty_first_entry_disables_list`: the environment value
`",U1,U2"` carries the non-empty entries `U1`, `U2`, yet the resulting list
restricts nothing — the absent user `"Zed"` is authorized. -/
theorem C10_witness :
    is_authorized (envAllowList (',' :: "U1,U2".data)) [] "Zed".data "C0".data =
      is_authorized [] [] "Zed".data "C0".data := by
  exact C10_empty_first_entry_disables_list (',' :: "U1,U2".data) [] "Zed".data
    "C0".data (Or.inr (by decide))

end AuthorizationClaims

/-! ## The Teams polling bot's prompt extractor

`teams_claude_bot_polling.py` lines 295-304 (`clean_message_content`):

```
content = re.sub('<[^>]+>', '', content)
content = re.sub(r'@claude\s*', '', content, flags=re.IGNORECASE)
return content.strip()
```

`re.sub` scans left to right: at each position it removes the leftmost
match and resumes after it, else advances one character. A match of
`<[^>]+>` at a `<` exists iff the first `>` after it is at distance at least
two (the `[^>]+` chars are exactly those before that first `>`).
-/

namespace TeamsBot

open PyStr

/-- Split a string at its first `'>'`: `some (pre, post)` with
`s = pre ++ '>' :: post` and no `'>'` in `pre`, or `none` when `s` has no
`'>'`. This is how the regex `<[^>]+>` matches at a `'<'`. -/
def findGt : Str → Option (Str × Str)
  | [] => none
  | c :: t =>
    if c = '>' then some ([], t)
    else (findGt t).map (fun p => (c :: p.1, p.2))

theorem findGt_some : ∀ {t pre post : Str}, findGt t = some (pre, post) →
    t = pre ++ '>' :: post ∧ '>' ∉ pre := by
  intro t
  induction t with
  | nil => intro pre post h; simp [findGt] at h
  | cons a b ih =>
    intro pre post h
    by_cases ha : a = '>'
    · subst ha
      have he : findGt ('>' :: b) = some ([], b) := rfl
      rw [he] at h
      cases h
      simp
    · simp only [findGt, if_neg ha] at h
      cases hb : findGt b with
      | none => rw [hb] at h; simp at h
      | some q =>
        obtain ⟨q1, q2⟩ := q
        rw [hb] at h
        dsimp only [Option.map] at h
        cases h
        obtain ⟨hb1, hb2⟩ := ih hb
        constructor
        · rw [List.cons_append, ← hb1]
        · simp only [List.mem_cons, not_or]
          exact ⟨fun hx => ha hx.symm, hb2⟩

theorem findGt_none : ∀ {t : Str}, findGt t = none → '>' ∉ t := by
  intro t
  induction t with
  | nil => intro _; simp
  | cons a b ih =>
    intro h
    by_cases ha : a = '>'
    · subst ha
      have he : findGt ('>' :: b) = some ([], b) := rfl
      rw [he] at h
      cases h
    · simp only [findGt, if_neg ha] at h
      cases hb : findGt b with
      | none =>
        simp only [List.mem_cons, not_or]
        exact ⟨fun hx => ha hx.symm, ih hb⟩
      | some q => rw [hb] at h; simp at h

theorem findGt_of_not_mem : ∀ {t : Str}, '>' ∉ t → findGt t = none := by
  intro t
  induction t with
  | nil => intro _; rfl
  | cons a b ih =>
    intro h
    simp only [List.mem_cons, not_or] at h
    have ha : ¬ a = '>' := fun hx => h.1 hx.symm
    rw [findGt, if_neg ha, ih h.2]
    rfl

theorem findGt_some_length {t pre post : Str} (h : findGt t = some (pre, post)) :
    post.length < t.length := by
  obtain ⟨h1, _⟩ := findGt_some h
  subst h1
  simp only [List.length_append, List.length_cons]
  omega

/-- The scan of `re.sub('<[^>]+>', '', content)`, indexed by a fuel that any
value at least the string's length saturates. At a `'<'` whose first
following `'>'` is adjacent (or absent) there is no match of `<[^>]+>` and
the scan advances one character; otherwise the leftmost match — through that
first `'>'` — is removed and the scan resumes after it. -/
def removeTagsF : Nat → Str → Str
  | 0, s => s
  | _ + 1, [] => []
  | fuel + 1, c :: t =>
    if c = '<' then
      match findGt t with
      | some (pre, post) =>
        if pre = [] then c :: removeTagsF fuel t else removeTagsF fuel post
      | none => c :: removeTagsF fuel t
    else c :: removeTagsF fuel t

theorem removeTagsF_nil : ∀ f, removeTagsF f [] = [] := by
  intro f; cases f <;> rfl

theorem removeTagsF_fuel : ∀ (f g : Nat) (s : Str),
    s.length ≤ f → s.length ≤ g → removeTagsF f s = removeTagsF g s := by
  intro f
  induction f with
  | zero =>
    intro g s hf _
    have : s = [] := List.length_eq_zero.mp (Nat.le_zero.mp hf)
    subst this
    rw [removeTagsF_nil, removeTagsF_nil]
  | succ f ih =>
    intro g s hf hg
    cases s with
    | nil => rw [removeTagsF_nil, removeTagsF_nil]
    | cons c t =>
      simp only [List.length_cons] at hf hg
      cases g with
      | zero => omega
      | succ g =>
        have hf' : t.length ≤ f := by omega
        have hg' : t.length ≤ g := by omega
        simp only [removeTagsF]
        cases hgt : findGt t with
        | none => rw [ih g t hf' hg']
        | some p =>
          obtain ⟨pre, post⟩ := p
          have hplen : post.length < t.length := findGt_some_length hgt
          dsimp only
          by_cases hpre : pre = []
          · rw [if_pos hpre, if_pos hpre, ih g t hf' hg']
          · rw [if_neg hpre, if_neg hpre, ih g post (by omega) (by omega),
              ih g t hf' hg']

/-- `re.sub('<[^>]+>', '', content)` (the first substitution of
`clean_message_content`). -/
def removeTags (s : Str) : Str := removeTagsF s.length s

theorem removeTags_nil : removeTags [] = [] := rfl

/-- The defining scan equation of `removeTags`, recovered from the fuelled
form. -/
theorem removeTags_cons (c : Char) (t : Str) :
    removeTags (c :: t) =
      if c = '<' then
        match findGt t with
        | some (pre, post) =>
          if pre = [] then c :: removeTags t else removeTags post
        | none => c :: removeTags t
      else c :: removeTags t := by
  show removeTagsF (t.length + 1) (c :: t) = _
  simp only [removeTagsF]
  cases hgt : findGt t with
  | none => rfl
  | some p =>
    obtain ⟨pre, post⟩ := p
    have hplen : post.length < t.length := findGt_some_length hgt
    dsimp only
    by_cases hpre : pre = []
    · rw [if_pos hpre, if_pos hpre]
      rfl
    · rw [if_neg hpre, if_neg hpre,
        removeTagsF_fuel t.length post.length post (by omega) (le_refl _)]
      rfl

/-- The lowered literal `@claude` of the mention regex. -/
def mentionPat : Str := ['@', 'c', 'l', 'a', 'u', 'd', 'e']

/-- A match of `@claude\s*` (case-insensitive) at the head of `s`: `some`
of the remainder after the literal and the greedily consumed whitespace. -/
def matchMention (s : Str) : Option Str :=
  if mentionPat.isPrefixOf (lower (s.take 7)) then
    some ((s.drop 7).dropWhile isSpace)
  else none

theorem matchMention_some {s rest : Str} (h : matchMention s = some rest) :
    rest = (s.drop 7).dropWhile isSpace ∧ 7 ≤ s.length := by
  simp only [matchMention] at h
  split at h
  · next hp =>
    refine ⟨(Option.some_inj.mp h).symm, ?_⟩
    have hle := (List.isPrefixOf_iff_prefix.mp hp).length_le
    simp only [mentionPat, lower, List.length_map, List.length_take,
      List.length_cons, List.length_nil] at hle
    omega
  · cases h

theorem matchMention_some_length {s rest : Str} (hs : s ≠ [])
    (h : matchMention s = some rest) : rest.length < s.length := by
  obtain ⟨hrest, hlen⟩ := matchMention_some h
  subst hrest
  calc ((s.drop 7).dropWhile isSpace).length
      ≤ (s.drop 7).length := (List.dropWhile_sublist _).length_le
    _ = s.length - 7 := by simp
    _ < s.length := by
        cases s with
        | nil => exact absurd rfl hs
        | cons a b => simp only [List.length_cons]; omega

theorem matchMention_gt (t : Str) : matchMention ('>' :: t) = none := by
  have hfalse : mentionPat.isPrefixOf (lower (('>' :: t).take 7)) = false := by
    simp only [mentionPat, lower, List.take_succ_cons, List.map_cons,
      List.isPrefixOf]
    rw [show ('@' == Char.toLower '>') = false from rfl, Bool.false_and]
  unfold matchMention
  rw [hfalse]
  simp

/-- The scan of `re.sub(r'@claude\s*', '', content, flags=re.IGNORECASE)`,
indexed by a fuel that any value at least the string's length saturates. -/
def removeMentionsF : Nat → Str → Str
  | 0, s => s
  | _ + 1, [] => []
  | fuel + 1, c :: t =>
    match matchMention (c :: t) with
    | some rest => removeMentionsF fuel rest
    | none => c :: removeMentionsF fuel t

theorem removeMentionsF_nil : ∀ f, removeMentionsF f [] = [] := by
  intro f; cases f <;> rfl

theorem removeMentionsF_fuel : ∀ (f g : Nat) (s : Str),
    s.length ≤ f → s.length ≤ g → removeMentionsF f s = removeMentionsF g s := by
  intro f
  induction f with
  | zero =>
    intro g s hf _
    have : s = [] := List.length_eq_zero.mp (Nat.le_zero.mp hf)
    subst this
    rw [removeMentionsF_nil, removeMentionsF_nil]
  | succ f ih =>
    intro g s hf hg
    cases s with
    | nil => rw [removeMentionsF_nil, removeMentionsF_nil]
    | cons c t =>
      simp only [List.length_cons] at hf hg
      cases g with
      | zero => omega
      | succ g =>
        simp only [removeMentionsF]
        cases hm : matchMention (c :: t) with
        | none =>
          dsimp only
          rw [ih g t (by omega) (by omega)]
        | some rest =>
          have hlen : rest.length < t.length + 1 := by
            have := matchMention_some_length (List.cons_ne_nil c t) hm
            simpa using this
          dsimp only
          rw [ih g rest (by omega) (by omega)]

/-- `re.sub(r'@claude\s*', '', content, flags=re.IGNORECASE)` (the second
substitution of `clean_message_content`). -/
def removeMentions (s : Str) : Str := removeMentionsF s.length s

theorem removeMentions_nil : removeMentions [] = [] := rfl

/-- The defining scan equation of `removeMentions`, recovered from the
fuelled form. -/
theorem removeMentions_cons (c : Char) (t : Str) :
    removeMentions (c :: t) =
      match matchMention (c :: t) with
      | some rest => removeMentions rest
      | none => c :: removeMentions t := by
  show removeMentionsF (t.length + 1) (c :: t) = _
  simp only [removeMentionsF]
  cases hm : matchMention (c :: t) with
  | none => rfl
  | some rest =>
    have hlen : rest.length < t.length + 1 := by
      have := matchMention_some_length (List.cons_ne_nil c t) hm
      simpa using this
    dsimp only
    rw [removeMentionsF_fuel t.length rest.length rest (by omega) (le_refl _)]
    rfl

/-- `TeamsClaudeBot.clean_message_content`
(teams_claude_bot_polling.py lines 295-304). -/
def clean_message_content (content : Str) : Str :=
  strip (removeMentions (removeTags content))

/-- No match of `<[^>]+>` starts at a `'<'` head followed by `t`: the first
`'>'` in `t` (if any) is its very first character. -/
def headTagOk (c : Char) (t : Str) : Bool :=
  if c = '<' then
    match findGt t with
    | some (pre, _) => pre.isEmpty
    | none => true
  else true

/-- The string contains no match of the markup-tag regex `<[^>]+>`. -/
def tagFree : Str → Bool
  | [] => true
  | c :: t => headTagOk c t && tagFree t

theorem headTagOk_of_ne {c : Char} (h : ¬c = '<') (t : Str) :
    headTagOk c t = true := by
  simp only [headTagOk, if_neg h]

theorem headTagOk_of_not_mem {t : Str} (h : '>' ∉ t) :
    headTagOk '<' t = true := by
  simp only [headTagOk, if_pos rfl, findGt_of_not_mem h]
  simp

theorem headTagOk_gt (x : Str) : headTagOk '<' ('>' :: x) = true := rfl

theorem headTagOk_lt_cases {t : Str} (h : headTagOk '<' t = true) :
    '>' ∉ t ∨ ∃ post, t = '>' :: post := by
  simp only [headTagOk, if_pos rfl] at h
  cases hgt : findGt t with
  | none => exact Or.inl (findGt_none hgt)
  | some p =>
    obtain ⟨pre, post⟩ := p
    rw [hgt] at h
    dsimp only at h
    have hpre : pre = [] := by simpa using h
    obtain ⟨h1, _⟩ := findGt_some hgt
    subst hpre
    exact Or.inr ⟨post, by simpa using h1⟩

theorem tagFree_cons_parts {c : Char} {t : Str} (h : tagFree (c :: t) = true) :
    headTagOk c t = true ∧ tagFree t = true := by
  rw [tagFree, Bool.and_eq_true] at h
  exact h

theorem tagFree_cons_build {c : Char} {t : Str} (h1 : headTagOk c t = true)
    (h2 : tagFree t = true) : tagFree (c :: t) = true := by
  rw [tagFree, Bool.and_eq_true]
  exact ⟨h1, h2⟩

theorem tagFree_append_right : ∀ {l r : Str}, tagFree (l ++ r) = true →
    tagFree r = true := by
  intro l
  induction l with
  | nil => intro r h; exact h
  | cons c t ih =>
    intro r h
    exact ih (tagFree_cons_parts h).2

theorem tagFree_suffix {l r : Str} (hsub : List.IsSuffix r l)
    (h : tagFree l = true) : tagFree r = true := by
  obtain ⟨pre, hpre⟩ := hsub
  subst hpre
  exact tagFree_append_right h

theorem removeTags_sublist_aux : ∀ (n : Nat) (s : Str), s.length ≤ n →
    List.Sublist (removeTags s) s := by
  intro n
  induction n with
  | zero =>
    intro s h
    have : s = [] := List.length_eq_zero.mp (Nat.le_zero.mp h)
    subst this
    exact List.Sublist.refl _
  | succ n ih =>
    intro s h
    cases s with
    | nil => exact List.Sublist.refl _
    | cons c t =>
      simp only [List.length_cons] at h
      have ht : t.length ≤ n := by omega
      rw [removeTags_cons]
      by_cases hc : c = '<'
      · rw [if_pos hc]
        cases hgt : findGt t with
        | none => exact (ih t ht).cons₂ c
        | some p =>
          obtain ⟨pre, post⟩ := p
          dsimp only
          by_cases hpre : pre = []
          · rw [if_pos hpre]
            exact (ih t ht).cons₂ c
          · rw [if_neg hpre]
            obtain ⟨h1, _⟩ := findGt_some hgt
            have hplen : post.length ≤ n := by
              have := findGt_some_length hgt
              omega
            have hsub : List.Sublist post t := by
              rw [h1]
              exact List.Sublist.trans (List.sublist_cons_self '>' post)
                (List.sublist_append_right pre ('>' :: post))
            exact List.Sublist.trans (List.Sublist.trans (ih post hplen) hsub)
              (List.sublist_cons_self c t)
      · rw [if_neg hc]
        exact (ih t ht).cons₂ c

theorem removeTags_sublist (s : Str) : List.Sublist (removeTags s) s :=
  removeTags_sublist_aux s.length s (le_refl _)

theorem removeMentions_sublist_aux : ∀ (n : Nat) (s : Str), s.length ≤ n →
    List.Sublist (removeMentions s) s := by
  intro n
  induction n with
  | zero =>
    intro s h
    have : s = [] := List.length_eq_zero.mp (Nat.le_zero.mp h)
    subst this
    exact List.Sublist.refl _
  | succ n ih =>
    intro s h
    cases s with
    | nil => exact List.Sublist.refl _
    | cons c t =>
      simp only [List.length_cons] at h
      rw [removeMentions_cons]
      cases hm : matchMention (c :: t) with
      | none =>
        dsimp only
        exact (ih t (by omega)).cons₂ c
      | some rest =>
        dsimp only
        obtain ⟨hrest, _⟩ := matchMention_some hm
        have hlen : rest.length ≤ n := by
          have := matchMention_some_length (List.cons_ne_nil c t) hm
          simp only [List.length_cons] at this
          omega
        have hsub : List.Sublist rest (c :: t) := by
          rw [hrest]
          exact List.Sublist.trans (List.dropWhile_sublist _)
            (List.drop_sublist _ _)
        exact List.Sublist.trans (ih rest hlen) hsub

theorem removeMentions_sublist (s : Str) : List.Sublist (removeMentions s) s :=
  removeMentions_sublist_aux s.length s (le_refl _)

/-- The first substitution leaves no match of the tag regex behind. -/
theorem tagFree_removeTags_aux : ∀ (n : Nat) (s : Str), s.length ≤ n →
    tagFree (removeTags s) = true := by
  intro n
  induction n with
  | zero =>
    intro s h
    have : s = [] := List.length_eq_zero.mp (Nat.le_zero.mp h)
    subst this
    rfl
  | succ n ih =>
    intro s h
    cases s with
    | nil => rfl
    | cons c t =>
      simp only [List.length_cons] at h
      have ht : t.length ≤ n := by omega
      rw [removeTags_cons]
      by_cases hc : c = '<'
      · rw [if_pos hc]
        cases hgt : findGt t with
        | none =>
          subst hc
          refine tagFree_cons_build ?_ (ih t ht)
          have hmem : '>' ∉ removeTags t :=
            fun hx => findGt_none hgt ((removeTags_sublist t).subset hx)
          exact headTagOk_of_not_mem hmem
        | some p =>
          obtain ⟨pre, post⟩ := p
          dsimp only
          by_cases hpre : pre = []
          · rw [if_pos hpre]
            subst hc
            subst hpre
            obtain ⟨h1, _⟩ := findGt_some hgt
            simp only [List.nil_append] at h1
            refine tagFree_cons_build ?_ (ih t ht)
            rw [h1, removeTags_cons, if_neg (by decide)]
            exact headTagOk_gt _
          · rw [if_neg hpre]
            have hplen : post.length ≤ n := by
              have := findGt_some_length hgt
              omega
            exact ih post hplen
      · rw [if_neg hc]
        exact tagFree_cons_build (headTagOk_of_ne hc _) (ih t ht)

theorem tagFree_removeTags (s : Str) : tagFree (removeTags s) = true :=
  tagFree_removeTags_aux s.length s (le_refl _)

/-- The mention substitution preserves freedom from tag matches: the spans
it deletes contain neither `'<'` nor `'>'`. -/
theorem tagFree_removeMentions_aux : ∀ (n : Nat) (s : Str), s.length ≤ n →
    tagFree s = true → tagFree (removeMentions s) = true := by
  intro n
  induction n with
  | zero =>
    intro s h _
    have : s = [] := List.length_eq_zero.mp (Nat.le_zero.mp h)
    subst this
    rfl
  | succ n ih =>
    intro s h hfree
    cases s with
    | nil => rfl
    | cons c t =>
      simp only [List.length_cons] at h
      obtain ⟨h1, h2⟩ := tagFree_cons_parts hfree
      rw [removeMentions_cons]
      cases hm : matchMention (c :: t) with
      | some rest =>
        dsimp only
        obtain ⟨hrest, _⟩ := matchMention_some hm
        have hlen : rest.length ≤ n := by
          have := matchMention_some_length (List.cons_ne_nil c t) hm
          simp only [List.length_cons] at this
          omega
        have hsuf : List.IsSuffix rest (c :: t) := by
          rw [hrest]
          exact List.IsSuffix.trans (List.dropWhile_suffix _)
            (List.drop_suffix _ _)
        exact ih rest hlen (tagFree_suffix hsuf hfree)
      | none =>
        dsimp only
        refine tagFree_cons_build ?_ (ih t (by omega) h2)
        by_cases hc : c = '<'
        · subst hc
          rcases headTagOk_lt_cases h1 with hmem | ⟨post, hpost⟩
          · exact headTagOk_of_not_mem
              (fun hx => hmem ((removeMentions_sublist t).subset hx))
          · subst hpost
            rw [removeMentions_cons, matchMention_gt]
            exact headTagOk_gt _
        · exact headTagOk_of_ne hc _

theorem tagFree_removeMentions {s : Str} (h : tagFree s = true) :
    tagFree (removeMentions s) = true :=
  tagFree_removeMentions_aux s.length s (le_refl _) h

theorem tagFree_dropTrailing : ∀ l : Str, tagFree l = true →
    tagFree (dropTrailing l) = true := by
  intro l
  induction l with
  | nil => intro h; exact h
  | cons c t ih =>
    intro h
    obtain ⟨h1, h2⟩ := tagFree_cons_parts h
    simp only [dropTrailing]
    by_cases hcond : ((dropTrailing t).isEmpty && isSpace c) = true
    · rw [if_pos hcond]
      rfl
    · rw [if_neg hcond]
      refine tagFree_cons_build ?_ (ih h2)
      by_cases hc : c = '<'
      · subst hc
        rcases headTagOk_lt_cases h1 with hmem | ⟨post, hpost⟩
        · exact headTagOk_of_not_mem
            (fun hx => hmem ((dropTrailing_sublist t).subset hx))
        · subst hpost
          rw [dropTrailing_cons_not_space (by decide)]
          exact headTagOk_gt _
      · exact headTagOk_of_ne hc _

theorem tagFree_strip {l : Str} (h : tagFree l = true) :
    tagFree (strip l) = true :=
  tagFree_dropTrailing _ (tagFree_suffix (List.dropWhile_suffix _) h)

/-- On a string with no tag match the first substitution is the identity. -/
theorem removeTags_of_tagFree_aux : ∀ (n : Nat) (s : Str), s.length ≤ n →
    tagFree s = true → removeTags s = s := by
  intro n
  induction n with
  | zero =>
    intro s h _
    have : s = [] := List.length_eq_zero.mp (Nat.le_zero.mp h)
    subst this
    rfl
  | succ n ih =>
    intro s h hfree
    cases s with
    | nil => rfl
    | cons c t =>
      simp only [List.length_cons] at h
      obtain ⟨h1, h2⟩ := tagFree_cons_parts hfree
      rw [removeTags_cons]
      by_cases hc : c = '<'
      · rw [if_pos hc]
        subst hc
        simp only [headTagOk, if_pos rfl] at h1
        cases hgt : findGt t with
        | none => rw [ih t (by omega) h2]
        | some p =>
          obtain ⟨pre, post⟩ := p
          rw [hgt] at h1
          dsimp only at h1
          have hpre : pre = [] := by simpa using h1
          dsimp only
          rw [if_pos hpre, ih t (by omega) h2]
      · rw [if_neg hc, ih t (by omega) h2]

theorem removeTags_of_tagFree {s : Str} (h : tagFree s = true) :
    removeTags s = s :=
  removeTags_of_tagFree_aux s.length s (le_refl _) h

/-- Some position of the string starts a match of the mention pattern. -/
def hasMention : Str → Bool
  | [] => false
  | c :: t => (matchMention (c :: t)).isSome || hasMention t

/-- On a string with no mention match the second substitution is the
identity. -/
theorem removeMentions_of_not_hasMention : ∀ {s : Str}, hasMention s = false →
    removeMentions s = s := by
  intro s
  induction s with
  | nil => intro _; rfl
  | cons c t ih =>
    intro h
    rw [hasMention, Bool.or_eq_false_iff] at h
    rw [removeMentions_cons]
    cases hm : matchMention (c :: t) with
    | some rest =>
      rw [hm] at h
      simp at h
    | none =>
      dsimp only
      rw [ih h.2]

end TeamsBot

/-! ## The simple Teams webhook bot's prompt extraction

`teams_bot_simple.py` lines 53-57 (inside `webhook`):
`prompt = text.replace("<at>Claude</at>", "").strip()`. -/

namespace TeamsSimple

open PyStr

/-- The prompt-extraction step of `webhook` in `teams_bot_simple.py`
(line 57). -/
def extract_prompt (text : Str) : Str :=
  strip (removeAllSub "<at>Claude</at>".data text)

end TeamsSimple

section ExtractorClaims

open PyStr TeamsBot

/-- **C4** (amended). For every message body, the output of
`clean_message_content` contains no match of the markup-tag regex
`<[^>]+>`; and applying the extractor twice yields the same result as once
for every body whose cleaned output contains no residual case-insensitive
`@claude` mention match. (Unconditional idempotence, as originally claimed,
is false: see `C4_counterexample`.) -/
theorem C4_clean_message_content_tags_and_idempotence (content : Str) :
    tagFree (clean_message_content content) = true ∧
    (hasMention (clean_message_content content) = false →
      clean_message_content (clean_message_content content) =
        clean_message_content content) := by
  have ht : tagFree (clean_message_content content) = true :=
    tagFree_strip (tagFree_removeMentions (tagFree_removeTags content))
  refine ⟨ht, fun hm => ?_⟩
  show strip (removeMentions (removeTags (clean_message_content content))) = _
  rw [removeTags_of_tagFree ht, removeMentions_of_not_hasMention hm]
  exact strip_idem _

/-- Witness for `C4_clean_message_content_tags_and_idempotence` at the body
`<b> hello </b>`: the cleaned output `hello` is tag-free and a fixed point
of the extractor. -/
theorem C4_witness :
    tagFree (clean_message_content "<b> hello </b>".data) = true ∧
    clean_message_content (clean_message_content "<b> hello </b>".data) =
      clean_message_content "<b> hello </b>".data :=
  ⟨(C4_clean_message_content_tags_and_idempotence "<b> hello </b>".data).1,
   (C4_clean_message_content_tags_and_idempotence "<b> hello </b>".data).2
     (by decide)⟩

/-- **C4, counterexample to idempotence as stated.** On the body
`@cl@claude aude`, removing the inner mention `@claude ` glues the
surrounding characters into a fresh `@claude`, so one application returns
`@claude` and a second application returns the empty string. -/
theorem C4_counterexample :
    clean_message_content "@cl@claude aude".data = "@claude".data ∧
    clean_message_content (clean_message_content "@cl@claude aude".data) =
      ([] : Str) ∧
    ("@claude".data : Str) ≠ [] := by
  decide

/-- **C9** (amended). For the body `<at>Claude</at> list the files`, the
simple webhook bot's extraction (`text.replace("<at>Claude</at>",
"").strip()`) produces exactly `list the files`; the polling bot's
`clean_message_content` instead produces `Claude list the files`, because
stripping the `<at>`/`</at>` tags leaves the display name, which the
`@claude` mention pattern does not match. -/
theorem C9_mention_extraction :
    TeamsSimple.extract_prompt "<at>Claude</at> list the files".data =
      "list the files".data ∧
    clean_message_content "<at>Claude</at> list the files".data =
      "Claude list the files".data := by
  decide

/-- **C9, counterexample to the claim as stated.** The polling variant is a
bot variant that extracts prompts from mention markup, yet on the body
`<at>Claude</at> list the files` it extracts `Claude list the files`, not
`list the files`. -/
theorem C9_counterexample :
    clean_message_content "<at>Claude</at> list the files".data ≠
      "list the files".data ∧
    clean_message_content "<at>Claude</at> list the files".data =
      "Claude list the files".data := by
  decide

end ExtractorClaims

/-! ## The Teams polling bot's deduplicator

`teams_claude_bot_polling.py` lines 174-188 (`process_chat_messages`): a
handled message's identifier is recorded by

```
self.processed_messages.add(message_id)
if len(self.processed_messages) > 1000:
    self.processed_messages = set(list(self.processed_messages)[-500:])
```

`list(set)` enumerates the set in an implementation-defined order, so the
trim keeps an implementation-defined 500-element subset; the model takes
that choice as a parameter constrained to what `set(list(s)[-500:])`
guarantees: a subset of size `min 500 |s|`. -/

namespace TeamsBot

/-- One record operation of the deduplicator: insert the identifier, then,
when the size exceeds 1000, replace the set by the trim's 500-element
subset. -/
def recordProcessed (trim : Finset String → Finset String)
    (s : Finset String) (id : String) : Finset String :=
  let s' := insert id s
  if 1000 < s'.card then trim s' else s'

/-- What `set(list(s)[-500:])` guarantees of its result: a subset of `s`
of size `min 500 |s|`. -/
def trimSpec (trim : Finset String → Finset String) : Prop :=
  ∀ s : Finset String, trim s ⊆ s ∧ (trim s).card = min 500 s.card

end TeamsBot

section DedupClaims

open TeamsBot

/-- **C5.** For every trim respecting what `set(list(s)[-500:])` guarantees,
a complete record operation (insertion plus conditional trim) leaves the
processed-message set with at most 1000 entries; and the insertion that
crosses the 1000-entry threshold (a fresh identifier added to a set of
exactly 1000) leaves exactly 500 entries. -/
theorem C5_dedup_bounded (trim : Finset String → Finset String)
    (htrim : trimSpec trim) (s : Finset String) (id : String) :
    (recordProcessed trim s id).card ≤ 1000 ∧
    (s.card = 1000 → id ∉ s → (recordProcessed trim s id).card = 500) := by
  constructor
  · unfold recordProcessed
    by_cases h : 1000 < (insert id s).card
    · rw [if_pos h, (htrim (insert id s)).2]
      have := Nat.min_le_left 500 (insert id s).card
      omega
    · rw [if_neg h]
      omega
  · intro hcard hnot
    unfold recordProcessed
    have hins : (insert id s).card = 1001 := by
      rw [Finset.card_insert_of_not_mem hnot, hcard]
    rw [if_pos (by omega), (htrim (insert id s)).2, hins]
    omega

/-- A concrete trim satisfying `trimSpec`: keep the first 500 elements of
the set's enumeration. -/
theorem takeTrim_spec : trimSpec (fun s => (s.toList.take 500).toFinset) := by
  intro s
  constructor
  · intro x hx
    rw [List.mem_toFinset] at hx
    exact (Finset.mem_toList).mp (List.take_subset _ _ hx)
  · have hnd : (s.toList.take 500).Nodup :=
      (List.take_sublist _ _).nodup s.nodup_toList
    rw [List.card_toFinset, hnd.dedup, List.length_take, Finset.length_toList]

/-- Witness for `C5_dedup_bounded` at the concrete trim that keeps the first
500 enumerated elements, starting from the empty set. -/
theorem C5_witness :
    (recordProcessed (fun s => (s.toList.take 500).toFinset) ∅ "m1").card ≤ 1000 ∧
    ((∅ : Finset String).card = 1000 → "m1" ∉ (∅ : Finset String) →
      (recordProcessed (fun s => (s.toList.take 500).toFinset) ∅ "m1").card = 500) :=
  C5_dedup_bounded _ takeTrim_spec ∅ "m1"

end DedupClaims

/-! ## The request pipelines

The executor boundary: each bot runs the external CLI in a subprocess with
`timeout=TIMEOUT_SECONDS`. The call either returns stdout with exit code 0,
raises `subprocess.TimeoutExpired`, or fails (non-zero exit / other error).
Its outcome is an explicit input of the pipeline models, and the models
return the trace of user-visible platform calls (plus the audit append and
the executor invocation itself) in program order. -/

/-- The outcome of the `subprocess.run` call on the external CLI. -/
inductive ExecOutcome where
  | success (stdout : Str)
  | timeout
  | failure (err : Str)

namespace PyStr

/-- Split a string at its first occurrence of `ch`. -/
def breakAtFirst (ch : Char) : Str → Option (Str × Str)
  | [] => none
  | c :: t =>
    if c = ch then some ([], t)
    else (breakAtFirst ch t).map (fun p => (c :: p.1, p.2))

/-- `os.path.splitext(name)[1]` for a name containing no path separator:
the suffix from the last `'.'`, unless every character before that dot is
itself a dot (so `.bashrc` has no extension). -/
def splitextExt (name : Str) : Str :=
  match breakAtFirst '.' name.reverse with
  | none => []
  | some (revAfter, revBefore) =>
    if revBefore.reverse.any (fun c => !(c = '.')) then '.' :: revAfter.reverse
    else []

end PyStr

namespace SlackBot

open PyStr

/-- A user-visible (or audited) step of the Slack bot's request handling. -/
inductive Action where
  | sendMessage (text : Str)
  | deleteMessage
  | sendFile (path : Str) (comment : Str)
  | sendFormatted (content prompt : Str)
  | logAudit (user channel prompt : Str)
  | execClaude (prompt : Str)
  deriving DecidableEq

def promptRequiredMsg : Str := "Please provide a prompt for Claude.".data

/-- The f-string of lines 233-235 (the braced expression's line break does
not appear in the output). -/
def tooLongMsg (maxLen : Nat) : Str :=
  "Prompt too long. Maximum length is ".data ++ (Nat.repr maxLen).data ++
    " characters.".data

def processingMsg : Str := "_processing..._".data

def slackTimeoutMsg : Str :=
  "⏱️ Claude took too long to respond. Please try a simpler request.".data

def errorPrefix : Str := "❌ Error: ".data

/-- The extensions classified as intermediate source files (not uploaded). -/
def srcExts : List Str := [".dot".data, ".puml".data]

/-- `ClaudeSlackBot.process_claude_request` (slack_claude_bot.py
lines 223-386) as the trace of its user-visible steps. Parameters stand for
the external state the code reads: `extractFilenames` is
`extract_filenames_from_text` (a pure helper the claims do not touch),
`fileExists` is `os.path.exists`, `dirFiles` is the listing of regular
files in the request's working directory after execution. Filesystem writes
(sandbox setup/cleanup) and the conversation-context fetch have no
user-visible effect and do not appear in the trace. -/
def process_claude_request (extractFilenames : Str → List Str)
    (fileExists : Str → Bool) (maxLen : Nat) (dirFiles : List Str)
    (channel user prompt : Str) (exec : ExecOutcome) : List Action :=
  if strip prompt = [] then [.sendMessage promptRequiredMsg]
  else if maxLen < prompt.length then [.sendMessage (tooLongMsg maxLen)]
  else
    [.logAudit user channel prompt, .sendMessage processingMsg,
     .execClaude prompt] ++
    match exec with
    | .timeout => [.deleteMessage, .sendMessage slackTimeoutMsg]
    | .failure err => [.deleteMessage, .sendMessage (errorPrefix ++ err)]
    | .success stdout =>
      let result := strip stdout
      let createdFiles := dirFiles.filter
        (fun f => !srcExts.contains (splitextExt (lower f)))
      let mentioned := (extractFilenames result).filter
        (fun f => !createdFiles.contains f && fileExists f)
      let isJustFileNotification :=
        decide (result.length < 200) &&
        createdFiles.any (fun f => containsStr (lower result) (lower f)) &&
        ["created".data, "saved".data, "generated".data, "wrote".data].any
          (fun w => containsStr (lower result) w)
      [.deleteMessage] ++
      createdFiles.map (fun f => .sendFile f ("📎 Created: ".data ++ f)) ++
      mentioned.map (fun f => .sendFile f ("📎 Created: ".data ++ f)) ++
      if createdFiles = [] then [.sendFormatted result prompt]
      else if !isJustFileNotification then [.sendFormatted result prompt]
      else []

end SlackBot

namespace TeamsBot

open PyStr

/-- A user-visible step of the Teams polling bot's mention handling. -/
inductive TAction where
  | sendMessage (body : Str)
  | execClaude (prompt : Str)
  deriving DecidableEq

/-- `TeamsClaudeBot.send_message`'s body formatting (lines 266-279): wrap in
`<pre>` when the content carries a code fence or more than 3 lines. -/
def teamsMessageBody (content : Str) : Str :=
  if containsStr content "```".data || 3 < (split '\n' content).length then
    "<pre>".data ++ content ++ "</pre>".data
  else content

def teamsTimeoutMsg : Str := "⏱️ Claude took too long to respond.".data

def teamsErrorPrefix : Str := "❌ Error: ".data

/-- `TeamsClaudeBot.handle_mention` (teams_claude_bot_polling.py
lines 203-232) as the trace of its user-visible steps: extract the prompt,
silently return when it is empty, otherwise execute and send one response
message (the typing indicator is a `pass`). `.failure err` carries the text
of the exception raised by `execute_claude`. -/
def handle_mention (content : Str) (exec : ExecOutcome) : List TAction :=
  let prompt := clean_message_content content
  if prompt = [] then []
  else
    [.execClaude prompt] ++
    match exec with
    | .success stdout => [.sendMessage (teamsMessageBody (strip stdout))]
    | .timeout => [.sendMessage (teamsMessageBody teamsTimeoutMsg)]
    | .failure err =>
      [.sendMessage (teamsMessageBody (teamsErrorPrefix ++ err))]

end TeamsBot

namespace TeamsSimple

open PyStr

/-- A step of the simple webhook bot's request handling. -/
inductive WAction where
  | execClaude (prompt : Str)
  | respond (text : Str)
  deriving DecidableEq

/-- `execute_claude` of teams_bot_simple.py (lines 94-120): it catches its
own errors and always returns a string. -/
def execute_claude (exec : ExecOutcome) : Str :=
  match exec with
  | .success stdout => strip stdout
  | .timeout => "⏱️ Claude took too long to respond.".data
  | .failure err => "Claude error: ".data ++ err

/-- The `webhook` handler of teams_bot_simple.py (lines 41-76): extract the
prompt and unconditionally execute; the response text is whatever
`execute_claude` returned. -/
def webhook (text : Str) (exec : ExecOutcome) : List WAction :=
  let prompt := extract_prompt text
  [.execClaude prompt, .respond (execute_claude exec)]

end TeamsSimple

section PipelineClaims

open PyStr SlackBot TeamsBot TeamsSimple

theorem matchMention_cons_of_ne {c : Char}
    (hc : ('@' == Char.toLower c) = false) (t : Str) :
    matchMention (c :: t) = none := by
  have hfalse : mentionPat.isPrefixOf (lower ((c :: t).take 7)) = false := by
    simp only [mentionPat, lower, List.take_succ_cons, List.map_cons,
      List.isPrefixOf, hc, Bool.false_and]
  unfold matchMention
  rw [hfalse]
  simp

theorem removeTags_replicate_a : ∀ n : Nat,
    removeTags (List.replicate n 'a') = List.replicate n 'a' := by
  intro n
  induction n with
  | zero => rfl
  | succ n ih =>
    rw [List.replicate_succ, removeTags_cons, if_neg (by decide), ih]

theorem removeMentions_replicate_a : ∀ n : Nat,
    removeMentions (List.replicate n 'a') = List.replicate n 'a' := by
  intro n
  induction n with
  | zero => rfl
  | succ n ih =>
    rw [List.replicate_succ, removeMentions_cons,
      matchMention_cons_of_ne (by decide), ih]

theorem dropTrailing_replicate_a : ∀ n : Nat,
    dropTrailing (List.replicate n 'a') = List.replicate n 'a' := by
  intro n
  induction n with
  | zero => rfl
  | succ n ih =>
    rw [List.replicate_succ, dropTrailing_cons_not_space (by decide), ih]

theorem strip_replicate_a (n : Nat) :
    strip (List.replicate n 'a') = List.replicate n 'a' := by
  cases n with
  | zero => rfl
  | succ n =>
    unfold strip
    rw [List.replicate_succ, List.dropWhile_cons_of_neg (by decide),
      ← List.replicate_succ, dropTrailing_replicate_a]

theorem clean_replicate_a (n : Nat) :
    clean_message_content (List.replicate n 'a') = List.replicate n 'a' := by
  unfold clean_message_content
  rw [removeTags_replicate_a, removeMentions_replicate_a, strip_replicate_a]

/-- **C2, evaluation at the failing input.** A prompt of 1001 `a`s exceeds
the default cap of 1000, yet the Teams polling bot's `handle_mention`
invokes the executor on it (its `MAX_PROMPT_LENGTH` constant is read but
never checked), while the Slack bot's `process_claude_request` rejects the
same prompt before the executor with the prompt-too-long message. -/
theorem C2_teams_polling_executes_oversized_prompt :
    1000 < (List.replicate 1001 'a' : Str).length ∧
    TeamsBot.handle_mention (List.replicate 1001 'a') ExecOutcome.timeout =
      [TeamsBot.TAction.execClaude (List.replicate 1001 'a'),
       TeamsBot.TAction.sendMessage TeamsBot.teamsTimeoutMsg] ∧
    SlackBot.process_claude_request (fun _ => []) (fun _ => false) 1000 []
      "C0".data "U0".data (List.replicate 1001 'a') ExecOutcome.timeout =
      [SlackBot.Action.sendMessage (SlackBot.tooLongMsg 1000)] := by
  have hlen : (List.replicate 1001 'a' : Str).length = 1001 :=
    List.length_replicate 1001 'a'
  have hne : (List.replicate 1001 'a' : Str) ≠ [] := by
    intro h
    have := congrArg List.length h
    rw [hlen] at this
    simp at this
  refine ⟨by rw [hlen]; omega, ?_, ?_⟩
  · unfold handle_mention
    rw [clean_replicate_a, if_neg hne,
      show teamsMessageBody teamsTimeoutMsg = teamsTimeoutMsg from by decide]
    rfl
  · unfold process_claude_request
    rw [strip_replicate_a, if_neg hne, if_pos (by rw [hlen]; omega)]

/-- **C3** (amended). On executor timeout, the Teams polling bot sends
exactly `⏱️ Claude took too long to respond.` and the simple webhook bot
responds with exactly that text, while the Slack bot sends exactly
`⏱️ Claude took too long to respond. Please try a simpler request.` (after
deleting its processing placeholder); in every variant the timeout message
is the last step of the request — no file or further text response
follows. -/
theorem C3_timeout_responses (extractF : Str → List Str)
    (fileExists : Str → Bool) (maxLen : Nat) (dirFiles : List Str)
    (channel user prompt content text : Str)
    (hne : strip prompt ≠ []) (hcap : prompt.length ≤ maxLen)
    (hteams : clean_message_content content ≠ []) :
    SlackBot.process_claude_request extractF fileExists maxLen dirFiles
        channel user prompt ExecOutcome.timeout =
      [SlackBot.Action.logAudit user channel prompt,
       SlackBot.Action.sendMessage SlackBot.processingMsg,
       SlackBot.Action.execClaude prompt,
       SlackBot.Action.deleteMessage,
       SlackBot.Action.sendMessage SlackBot.slackTimeoutMsg] ∧
    TeamsBot.handle_mention content ExecOutcome.timeout =
      [TeamsBot.TAction.execClaude (clean_message_content content),
       TeamsBot.TAction.sendMessage TeamsBot.teamsTimeoutMsg] ∧
    TeamsSimple.webhook text ExecOutcome.timeout =
      [TeamsSimple.WAction.execClaude (TeamsSimple.extract_prompt text),
       TeamsSimple.WAction.respond
         "⏱️ Claude took too long to respond.".data] := by
  refine ⟨?_, ?_, rfl⟩
  · unfold process_claude_request
    rw [if_neg hne, if_neg (by omega)]
    rfl
  · unfold handle_mention
    rw [if_neg hteams,
      show teamsMessageBody teamsTimeoutMsg = teamsTimeoutMsg from by decide]
    rfl

/-- Witness for `C3_timeout_responses` at the prompt `hi` (Slack), the body
`hola` (Teams polling) and the text `t` (webhook). -/
theorem C3_witness :
    SlackBot.process_claude_request (fun _ => []) (fun _ => false) 1000 []
        "C0".data "U0".data "hi".data ExecOutcome.timeout =
      [SlackBot.Action.logAudit "U0".data "C0".data "hi".data,
       SlackBot.Action.sendMessage SlackBot.processingMsg,
       SlackBot.Action.execClaude "hi".data,
       SlackBot.Action.deleteMessage,
       SlackBot.Action.sendMessage SlackBot.slackTimeoutMsg] ∧
    TeamsBot.handle_mention "hola".data ExecOutcome.timeout =
      [TeamsBot.TAction.execClaude (clean_message_content "hola".data),
       TeamsBot.TAction.sendMessage TeamsBot.teamsTimeoutMsg] ∧
    TeamsSimple.webhook "t".data ExecOutcome.timeout =
      [TeamsSimple.WAction.execClaude (TeamsSimple.extract_prompt "t".data),
       TeamsSimple.WAction.respond
         "⏱️ Claude took too long to respond.".data] :=
  C3_timeout_responses (fun _ => []) (fun _ => false) 1000 []
    "C0".data "U0".data "hi".data "hola".data "t".data
    (by decide) (by decide) (by decide)

/-- **C3, counterexample to the claim as stated.** The Slack variant's
timeout message is not exactly `⏱️ Claude took too long to respond.`: it
carries the extra sentence `Please try a simpler request.`. -/
theorem C3_counterexample :
    SlackBot.slackTimeoutMsg ≠ "⏱️ Claude took too long to respond.".data ∧
    SlackBot.process_claude_request (fun _ => []) (fun _ => false) 1000 []
        "C0".data "U0".data "hi".data ExecOutcome.timeout =
      [SlackBot.Action.logAudit "U0".data "C0".data "hi".data,
       SlackBot.Action.sendMessage SlackBot.processingMsg,
       SlackBot.Action.execClaude "hi".data,
       SlackBot.Action.deleteMessage,
       SlackBot.Action.sendMessage SlackBot.slackTimeoutMsg] := by
  decide

/-- **C6** (amended). On an empty extracted prompt the Slack bot
short-circuits before the executor with the user-visible message
`Please provide a prompt for Claude.`; the Teams polling bot short-circuits
before the executor but sends no message at all; the simple webhook bot does
not short-circuit — it invokes the executor whatever the extracted prompt. -/
theorem C6_empty_prompt_short_circuit (extractF : Str → List Str)
    (fileExists : Str → Bool) (maxLen : Nat) (dirFiles : List Str)
    (channel user prompt content text : Str) (exec : ExecOutcome) :
    (strip prompt = [] →
      SlackBot.process_claude_request extractF fileExists maxLen dirFiles
          channel user prompt exec =
        [SlackBot.Action.sendMessage SlackBot.promptRequiredMsg]) ∧
    (clean_message_content content = [] →
      TeamsBot.handle_mention content exec = []) ∧
    TeamsSimple.WAction.execClaude (TeamsSimple.extract_prompt text) ∈
      TeamsSimple.webhook text exec := by
  refine ⟨fun h => ?_, fun h => ?_, ?_⟩
  · unfold process_claude_request
    rw [if_pos h]
  · unfold handle_mention
    rw [if_pos h]
  · exact List.mem_cons_self _ _

/-- Witness for `C6_empty_prompt_short_circuit`: the whitespace prompt
` ` (Slack), the body `<p> </p>` whose cleaned prompt is empty (Teams
polling), and the bare mention `<at>Claude</at>` (webhook). -/
theorem C6_witness :
    SlackBot.process_claude_request (fun _ => []) (fun _ => false) 1000 []
        "C0".data "U0".data " ".data ExecOutcome.timeout =
      [SlackBot.Action.sendMessage SlackBot.promptRequiredMsg] ∧
    TeamsBot.handle_mention "<p> </p>".data ExecOutcome.timeout = [] ∧
    TeamsSimple.WAction.execClaude
        (TeamsSimple.extract_prompt "<at>Claude</at>".data) ∈
      TeamsSimple.webhook "<at>Claude</at>".data ExecOutcome.timeout := by
  refine ⟨?_, ?_, ?_⟩
  · exact (C6_empty_prompt_short_circuit (fun _ => []) (fun _ => false) 1000 []
      "C0".data "U0".data " ".data "x".data "x".data ExecOutcome.timeout).1
      (by decide)
  · exact (C6_empty_prompt_short_circuit (fun _ => []) (fun _ => false) 1000 []
      "C0".data "U0".data "x".data "<p> </p>".data "x".data
      ExecOutcome.timeout).2.1 (by decide)
  · exact (C6_empty_prompt_short_circuit (fun _ => []) (fun _ => false) 1000 []
      "C0".data "U0".data "x".data "x".data "<at>Claude</at>".data
      ExecOutcome.timeout).2.2

/-- **C6, counterexample to the claim as stated.** The Teams polling bot is
a variant whose pipeline short-circuits on the empty prompt *without* any
user-visible prompt-required message: its whole trace is empty. -/
theorem C6_counterexample :
    TeamsBot.clean_message_content "<p> </p>".data = [] ∧
    TeamsBot.handle_mention "<p> </p>".data ExecOutcome.timeout = [] := by
  decide

end PipelineClaims

/-! ## The acceptance grammar of `json.loads`

`send_formatted_content` calls `json.loads(content)` only to test whether it
succeeds. The scanner below mirrors Python's `json` module: values are
objects, arrays, strings (with `\uXXXX` and the eight single-character
escapes, control characters rejected), numbers matching
`-?(0|[1-9]\d*)(\.\d+)?([eE][+-]?\d+)?`, and the constants `true`, `false`,
`null`, `NaN`, `Infinity`, `-Infinity`; whitespace is space, tab, newline,
carriage return. The scan is indexed by a fuel; every step from `val` into
`items`/`members` first consumes a bracket and every further recursion
consumes at least one character, so `2 * length + 2` fuel never runs out on
an accepted input. -/

namespace PyJson

open PyStr

def jsonWs (c : Char) : Bool := c = ' ' || c = '\t' || c = '\n' || c = '\r'

def skipWs (s : Str) : Str := s.dropWhile jsonWs

def hexDigit (c : Char) : Bool :=
  c.isDigit || ('a' ≤ c && c ≤ 'f') || ('A' ≤ c && c ≤ 'F')

/-- The remainder after a JSON string body (the opening quote already
consumed), or `none`. -/
def parseJString : Str → Option Str
  | [] => none
  | '"' :: t => some t
  | '\\' :: 'u' :: a :: b :: c :: d :: r =>
    if hexDigit a && hexDigit b && hexDigit c && hexDigit d then
      parseJString r
    else none
  | '\\' :: e :: t =>
    if (['"', '\\', '/', 'b', 'f', 'n', 'r', 't'] : Str).contains e then
      parseJString t
    else none
  | ['\\'] => none
  | c :: t => if c.toNat < 32 then none else parseJString t

/-- The integer part `0|[1-9]\d*` of the number regex. -/
def parseIntPart : Str → Option Str
  | '0' :: t => some t
  | c :: t => if c.isDigit then some (t.dropWhile Char.isDigit) else none
  | [] => none

/-- Consume `(\.\d+)?`: a fraction part, when present and well-formed. -/
def tryFrac : Str → Str
  | '.' :: c :: t =>
    if c.isDigit then (c :: t).dropWhile Char.isDigit else '.' :: c :: t
  | s => s

def expDigits : Str → Option Str
  | c :: t => if c.isDigit then some (t.dropWhile Char.isDigit) else none
  | [] => none

/-- Consume `([eE][+-]?\d+)?`: an exponent part, when present and
well-formed. -/
def tryExp (s : Str) : Str :=
  match s with
  | e :: rest =>
    if e = 'e' || e = 'E' then
      let body := match rest with
        | '+' :: r => expDigits r
        | '-' :: r => expDigits r
        | _ => expDigits rest
      match body with
      | some r2 => r2
      | none => s
    else s
  | [] => []

/-- The remainder after a JSON number, or `none`. -/
def parseNum (s : Str) : Option Str :=
  match s with
  | '-' :: t => (parseIntPart t).map (fun r => tryExp (tryFrac r))
  | _ => (parseIntPart s).map (fun r => tryExp (tryFrac r))

def expectLit (lit s : Str) : Option Str :=
  if lit.isPrefixOf s then some (s.drop lit.length) else none

/-- The scanner's mode: one value, the tail of an array after its first
element's position, or the members of an object. -/
inductive PMode where
  | val
  | items
  | members

def jsonRun : Nat → PMode → Str → Option Str
  | 0, _, _ => none
  | fuel + 1, PMode.val, s0 =>
    match skipWs s0 with
    | [] => none
    | '{' :: t =>
      (match skipWs t with
       | '}' :: r => some r
       | t2 => jsonRun fuel PMode.members t2)
    | '[' :: t =>
      (match skipWs t with
       | ']' :: r => some r
       | t2 => jsonRun fuel PMode.items t2)
    | '"' :: t => parseJString t
    | 't' :: t => expectLit "rue".data t
    | 'f' :: t => expectLit "alse".data t
    | 'n' :: t => expectLit "ull".data t
    | 'N' :: t => expectLit "aN".data t
    | 'I' :: t => expectLit "nfinity".data t
    | '-' :: 'I' :: t => expectLit "nfinity".data t
    | s => parseNum s
  | fuel + 1, PMode.items, s0 =>
    match jsonRun fuel PMode.val s0 with
    | none => none
    | some r =>
      match skipWs r with
      | ']' :: r2 => some r2
      | ',' :: r2 => jsonRun fuel PMode.items r2
      | _ => none
  | fuel + 1, PMode.members, s0 =>
    match skipWs s0 with
    | '"' :: t =>
      (match parseJString t with
       | none => none
       | some r =>
         match skipWs r with
         | ':' :: r2 =>
           (match jsonRun fuel PMode.val r2 with
            | none => none
            | some r3 =>
              match skipWs r3 with
              | '}' :: r4 => some r4
              | ',' :: r4 => jsonRun fuel PMode.members r4
              | _ => none)
         | _ => none)
    | _ => none

/-- Whether `json.loads(content)` succeeds. -/
def pyJsonOk (s : Str) : Bool :=
  match jsonRun (2 * s.length + 2) PMode.val s with
  | some r => (skipWs r).isEmpty
  | none => false

end PyJson

/-! ## The Slack bot's response formatter

`ClaudeSlackBot.send_formatted_content` (slack_claude_bot.py lines 501-622)
classifies the executor's output and picks one sending strategy; the model
returns that choice. `send_csv_formatted` (lines 644-663) renders small
CSVs as a Markdown table. The `os.path.exists` call on the (possibly
`abspath`-resolved) candidate path is the oracle `fileExists`, applied to
the stripped content; reading an existing data file is assumed to succeed
(its `except` path only logs and falls through). -/

namespace SlackBot

open PyStr PyJson

/-- The sending strategy `send_formatted_content` picks. -/
inductive SendChoice where
  | imageFile
  | dataFileInline (ext : Str)
  | asFile
  | jsonBlock
  | yamlBlock
  | csvFormatted
  | markdownText
  | codeBlock
  deriving DecidableEq

def pathExts : List Str :=
  [".png".data, ".jpg".data, ".jpeg".data, ".gif".data, ".svg".data,
   ".csv".data, ".json".data, ".yaml".data, ".yml".data]

def imageExts : List Str :=
  [".png".data, ".jpg".data, ".jpeg".data, ".gif".data, ".svg".data]

def dataExts : List Str :=
  [".csv".data, ".json".data, ".yaml".data, ".yml".data]

/-- Lines 508-515: does the (stripped) content look like a file path? -/
def is_likely_path (contentStripped : Str) : Bool :=
  startsWith contentStripped "/".data ||
  (decide ((split '\n' contentStripped).length = 1) &&
   decide (contentStripped.length < 100) &&
   !contentStripped.contains ' ' &&
   contentStripped.contains '.' &&
   pathExts.any (fun e => containsStr (lower contentStripped) e))

/-- Lines 517-557: the early-return file-path branch. `none` means the code
falls through to content sniffing (path not likely, file missing, or an
extension outside the recognized image/data sets). -/
def pathChoice (fileExists : Str → Bool) (content : Str) : Option SendChoice :=
  let contentStripped := strip content
  if is_likely_path contentStripped && fileExists contentStripped then
    let ext := splitextExt (lower contentStripped)
    if imageExts.contains ext then some SendChoice.imageFile
    else if dataExts.contains ext then some (SendChoice.dataFileInline ext)
    else none
  else none

/-- `ClaudeSlackBot.send_formatted_content` (lines 501-622) as the choice of
sending strategy. -/
def send_formatted_content (fileExists : Str → Bool) (content prompt : Str) :
    SendChoice :=
  match pathChoice fileExists content with
  | some r => r
  | none =>
    let contentLower := lower content
    let promptLower := lower prompt
    let wantsJson := ["json".data, "as json".data].any
      (fun w => containsStr promptLower w)
    let wantsYaml := ["yaml".data, "yml".data, "as yaml".data].any
      (fun w => containsStr promptLower w)
    let wantsCsv := ["csv".data, "comma separated".data, "as csv".data].any
      (fun w => containsStr promptLower w)
    let wantsFile := ["file".data, "download".data, "attachment".data].any
      (fun w => containsStr promptLower w)
    let isJson := (startsWith (strip content) "\x7b".data ||
      startsWith (strip content) "[".data) && pyJsonOk content
    let isYaml := startsWith (strip content) "---".data ||
      containsStr content ": ".data
    let isCsv := content.contains ',' && content.contains '\n' &&
      (let lines := split '\n' (strip content)
       decide (1 < lines.length) &&
       ((lines.drop 1).take 4).all
         (fun l => l.count ',' == (lines.headD []).count ','))
    let isSvg := containsStr contentLower "<svg".data &&
      containsStr contentLower "</svg>".data
    let isMarkdown := ["#".data, "**".data, "```".data, "|".data, "-".data,
      "*".data].any (fun m => containsStr content m)
    if isSvg || (wantsFile && (isJson || isYaml || isCsv)) then
      SendChoice.asFile
    else if isJson && !wantsYaml && !wantsCsv then SendChoice.jsonBlock
    else if isYaml && !wantsJson && !wantsCsv then SendChoice.yamlBlock
    else if isCsv then SendChoice.csvFormatted
    else if isMarkdown then SendChoice.markdownText
    else SendChoice.codeBlock

/-- What `send_csv_formatted` posts: a Markdown table, or a ```csv code
block for contents too large for one. -/
inductive CsvRendering where
  | table (text : Str)
  | codeBlock (text : Str)
  deriving DecidableEq

/-- One Markdown table row, as lines 652 and 655-657 build it. -/
def mdRow (cells : List Str) : Str :=
  "| ".data ++ List.intercalate " | ".data cells ++ " |\n".data

/-- `ClaudeSlackBot.send_csv_formatted` (lines 644-663). -/
def send_csv_formatted (csvContent : Str) : CsvRendering :=
  let lines := split '\n' (strip csvContent)
  if decide (lines.length ≤ 10) &&
      lines.all (fun l => decide ((split ',' l).length ≤ 5)) then
    CsvRendering.table
      (mdRow (split ',' (lines.headD [])) ++
       ("|".data ++
        List.intercalate "|".data
          (List.replicate (split ',' (lines.headD [])).length "---".data) ++
        "|\n".data) ++
       ((lines.drop 1).map (fun l => mdRow (split ',' l))).flatten)
  else
    CsvRendering.codeBlock ("```csv\n".data ++ csvContent ++ "\n```".data)

/-- The table the C8 claim describes, built from the CSV's lines: a header
row holding the first line's comma-separated cells, a second row of `---`
separators, one per header column, then one row per remaining line. -/
def claimCsvTable (lines : List Str) : Str :=
  mdRow (split ',' (lines.headD [])) ++
  ("|".data ++
   List.intercalate "|".data
     (List.replicate (split ',' (lines.headD [])).length "---".data) ++
   "|\n".data) ++
  ((lines.drop 1).map (fun l => mdRow (split ',' l))).flatten

end SlackBot

section FormatterClaims

open PyStr PyJson SlackBot

/-- **C7** (amended). For every executor output that `json.loads` accepts
*and whose stripped text begins with `{` or `[`* (the only shapes the code
ever hands to `json.loads`), when the file-path branch is not taken, the
formatter selects the JSON rendering path unless the prompt contains a
YAML/CSV request word (`yaml`, `yml`, `as yaml`, `csv`, `comma separated`,
`as csv`), a file request word (`file`, `download`, `attachment`), or the
output carries `<svg`/`</svg>` markers. Valid JSON that does not begin with
`{` or `[` — a bare scalar such as `42` — falls through to other renderings
(`C7_counterexample`). -/
theorem C7_json_rendering (fileExists : Str → Bool) (content prompt : Str)
    (hjson : pyJsonOk content = true)
    (hstart : (startsWith (strip content) "\x7b".data ||
      startsWith (strip content) "[".data) = true)
    (hpath : pathChoice fileExists content = none)
    (hwYaml : (["yaml".data, "yml".data, "as yaml".data] : List Str).any
      (fun w => containsStr (lower prompt) w) = false)
    (hwCsv : (["csv".data, "comma separated".data, "as csv".data] : List Str).any
      (fun w => containsStr (lower prompt) w) = false)
    (hwFile : (["file".data, "download".data, "attachment".data] : List Str).any
      (fun w => containsStr (lower prompt) w) = false)
    (hsvg : (containsStr (lower content) "<svg".data &&
      containsStr (lower content) "</svg>".data) = false) :
    send_formatted_content fileExists content prompt = SendChoice.jsonBlock := by
  unfold send_formatted_content
  rw [hpath]
  dsimp only
  rw [hsvg, hwFile, hwYaml, hwCsv, hstart, hjson]
  simp

/-- Witness for `C7_json_rendering` at the output `{"a": 1}` and the prompt
`please`. -/
theorem C7_witness :
    send_formatted_content (fun _ => false) "\x7b\"a\": 1\x7d".data "please".data =
      SendChoice.jsonBlock :=
  C7_json_rendering (fun _ => false) "\x7b\"a\": 1\x7d".data "please".data
    (by decide) (by decide) (by decide) (by decide) (by decide) (by decide)
    (by decide)

/-- **C7, counterexample to the claim as stated.** The output `42` parses as
valid JSON, is not a path to an existing file, and the prompt `please`
requests no format — yet the formatter renders a plain code block, not the
JSON path: the code only tries `json.loads` on text starting with `{` or
`[`. -/
theorem C7_counterexample :
    pyJsonOk "42".data = true ∧
    pathChoice (fun _ => false) "42".data = none ∧
    containsStr (lower "please".data) "yaml".data = false ∧
    containsStr (lower "please".data) "csv".data = false ∧
    send_formatted_content (fun _ => false) "42".data "please".data =
      SendChoice.codeBlock ∧
    send_formatted_content (fun _ => false) "42".data "please".data ≠
      SendChoice.jsonBlock := by
  decide

/-- **C8.** For every CSV content whose stripped form has at most 10 lines
and at most 5 comma-separated columns per line, `send_csv_formatted` renders
the Markdown table the claim describes: the first CSV line as the header
row, a second row of `---` separators (one per header column), then one
table row per remaining CSV line. -/
theorem C8_csv_markdown_table (csvContent : Str)
    (hlines : (split '\n' (strip csvContent)).length ≤ 10)
    (hcols : ∀ l ∈ split '\n' (strip csvContent), (split ',' l).length ≤ 5) :
    send_csv_formatted csvContent =
      CsvRendering.table (claimCsvTable (split '\n' (strip csvContent))) := by
  unfold send_csv_formatted claimCsvTable
  rw [if_pos]
  rw [Bool.and_eq_true]
  refine ⟨decide_eq_true hlines, ?_⟩
  rw [List.all_eq_true]
  intro l hl
  exact decide_eq_true (hcols l hl)

/-- Witness for `C8_csv_markdown_table` at the CSV `a,b\n1,2\n3,4`. -/
theorem C8_witness :
    send_csv_formatted "a,b\n1,2\n3,4".data =
      CsvRendering.table
        (claimCsvTable (split '\n' (strip "a,b\n1,2\n3,4".data))) :=
  C8_csv_markdown_table "a,b\n1,2\n3,4".data (by decide) (by decide)

end FormatterClaims
